import Mathlib

/-
Verification of the tcpchain simulation scenario (src/tcpchain.cc).

The development shallowly embeds the pieces of the program the claims are
about:

* the `MyApp` traffic-generator application (fields `m_socket`, `m_peer`,
  `m_packetSize`, `m_nPackets`, `m_dataRate`, `m_sendEvent`, `m_running`,
  `m_packetsSent` and the operations `Setup`, `StartApplication`,
  `StopApplication`, `SendPacket`, `ScheduleTx`), together with the
  discrete-event scheduler it interacts with (`Simulator::Schedule`,
  `Simulator::Cancel`, `EventId::IsRunning`).  The scheduler is a
  time-ordered queue of `(time, uid, kind)` events popped in `(time, uid)`
  order, exactly ns-3's dispatch order for equal-time events.  Simulated
  time is modelled with rationals.  In the C++ interval computation
  `m_packetSize * 8 / (double) m_dataRate.GetBitRate ()` the product
  `m_packetSize * 8` is `uint32_t` arithmetic and wraps modulo 2^32,
  which the embedding reproduces (`txInterval`); the division by zero
  that a zero bit rate causes is embedded with an explicit error branch
  (the `divByZero` flag) instead of an IEEE infinity.
* the congestion-window trace callback `CwndChange` (a pure observer: it
  produces one line for the ASCII trace stream and one line for the
  console stream and touches no other state).
* the scenario assembly in `main` (four nodes, three point-to-point links,
  address blocks, the receive error model, the sink and the generator
  application and their wiring).

The socket pointer held by `MyApp` is modelled by the flags `m_socketSet`
(the pointer is non-null, i.e. `Setup` ran) and `m_socketOpen` (the socket
has not been closed); `Bind`/`Connect` become the flags `m_bound` /
`m_connected`.  The peer address passed to `Setup` is only handed to
`Socket::Connect` and never influences the send loop, so it is carried by
the scenario description (`tcpChainScenario.genPeer`) rather than by the
application state.
-/

namespace TcpChain

/-- Kinds of scheduler events the scenario creates: the application start
event (`SetStartTime`), the application stop event (`SetStopTime`) and the
self-rescheduled `MyApp::SendPacket` event. -/
inductive EvKind where
  | evStart : EvKind
  | evStop : EvKind
  | evSend : EvKind
deriving DecidableEq, Repr

/-- A scheduled event: absolute fire time, unique id (insertion order, the
ns-3 event uid) and the callback kind. -/
structure SimEvent where
  time : ℚ
  seq : ℕ
  kind : EvKind
deriving DecidableEq, Repr

/-- The `MyApp` member state (src/tcpchain.cc lines 70-77). -/
structure MyAppState where
  m_packetSize : ℕ
  m_nPackets : ℕ
  m_dataRate : ℕ
  m_sendEvent : Option ℕ
  m_running : Bool
  m_packetsSent : ℕ
  m_socketSet : Bool
  m_socketOpen : Bool
  m_bound : Bool
  m_connected : Bool
deriving DecidableEq, Repr

/-- The simulation state: current simulated time, the next event uid, the
pending-event queue (kept sorted by `(time, uid)`), the application state,
the log of times at which `m_socket->Send` was called, and the flag
recording that the interval division hit a zero bit rate. -/
structure SimState where
  now : ℚ
  nextSeq : ℕ
  queue : List SimEvent
  app : MyAppState
  sentLog : List ℚ
  divByZero : Bool
deriving DecidableEq, Repr

/-- Scheduler dispatch order: earlier time first, ties broken by uid
(ns-3 runs equal-time events in scheduling order). -/
def evBefore (a b : SimEvent) : Prop :=
  a.time < b.time ∨ (a.time = b.time ∧ a.seq < b.seq)

instance (a b : SimEvent) : Decidable (evBefore a b) :=
  inferInstanceAs (Decidable (a.time < b.time ∨ (a.time = b.time ∧ a.seq < b.seq)))

/-- Insert an event into the sorted pending queue. -/
def insertEvent (e : SimEvent) : List SimEvent → List SimEvent
  | [] => [e]
  | f :: rest => if evBefore e f then e :: f :: rest else f :: insertEvent e rest

/-- `EventId::IsRunning`: the handle refers to an event still pending in
the queue (a never-assigned handle is `none` and is never running). -/
def eventPending (q : List SimEvent) : Option ℕ → Bool
  | none => false
  | some id => q.any (fun ev => ev.seq == id)

/-- `Simulator::Cancel`: a cancelled event never fires; observationally
this removes it from the pending queue. -/
def cancelEvent : Option ℕ → List SimEvent → List SimEvent
  | none, q => q
  | some id, q => q.filter (fun ev => ev.seq != id)

/-- `Simulator::Schedule (delay, ...)`: queue an event `delay` after the
current time, consuming the next uid. -/
def scheduleDelay (d : ℚ) (k : EvKind) (s : SimState) : SimState :=
  { s with queue := insertEvent ⟨s.now + d, s.nextSeq, k⟩ s.queue,
           nextSeq := s.nextSeq + 1 }

/-- The constant inter-send interval `m_packetSize * 8 /
(double) m_dataRate.GetBitRate ()` of `MyApp::ScheduleTx`
(src/tcpchain.cc line 161), in seconds.  `m_packetSize` is a `uint32_t`,
so the product `m_packetSize * 8` is computed in `uint32_t` and wraps
modulo 2^32 (for `packetSize ≥ 2^29`) before the double division; the
interval is therefore `((ps * 8) mod 2^32) / dr`.  It is written with
`mkRat` so that concrete runs evaluate inside the kernel;
`txInterval_eq_div` below proves it equal to the field division. -/
def txInterval (ps dr : ℕ) : ℚ :=
  mkRat (((ps * 8) % 4294967296 : ℕ) : ℤ) dr

/-- `MyApp::ScheduleTx` (src/tcpchain.cc lines 156-164): if the
application is running, schedule the next `SendPacket` one interval from
now and remember the event handle.  A zero bit rate makes the C++ double
division undefined; that branch is embedded as the `divByZero` error
flag. -/
def scheduleTx (s : SimState) : SimState :=
  if s.app.m_running = true then
    if s.app.m_dataRate = 0 then { s with divByZero := true }
    else
      let s' : SimState :=
        scheduleDelay (txInterval s.app.m_packetSize s.app.m_dataRate) EvKind.evSend s
      { s' with app := { s'.app with m_sendEvent := some s.nextSeq } }
  else s

/-- `MyApp::SendPacket` (src/tcpchain.cc lines 144-154): send one packet
of `m_packetSize` bytes (logged as the send time), pre-increment the sent
counter and, if it is still below `m_nPackets`, schedule the next send. -/
def sendPacket (s : SimState) : SimState :=
  let s1 : SimState :=
    { s with sentLog := s.sentLog ++ [s.now],
             app := { s.app with m_packetsSent := s.app.m_packetsSent + 1 } }
  if s1.app.m_packetsSent < s1.app.m_nPackets then scheduleTx s1 else s1

/-- `MyApp::StartApplication` (src/tcpchain.cc lines 118-126): set
`m_running`, reset the sent counter, bind and connect the socket, and send
the first packet immediately. -/
def startApplication (s : SimState) : SimState :=
  let a : MyAppState :=
    { s.app with m_running := true, m_packetsSent := 0, m_bound := true, m_connected := true }
  sendPacket { s with app := a }

/-- `MyApp::StopApplication` (src/tcpchain.cc lines 128-142): clear
`m_running`; cancel the send event if it is running; close the socket if
it exists. -/
def stopApplication (s : SimState) : SimState :=
  let s1 : SimState := { s with app := { s.app with m_running := false } }
  let s2 : SimState :=
    if eventPending s1.queue s1.app.m_sendEvent = true then
      { s1 with queue := cancelEvent s1.app.m_sendEvent s1.queue }
    else s1
  if s2.app.m_socketSet = true then
    { s2 with app := { s2.app with m_socketOpen := false } }
  else s2

/-- Run the callback of a popped event. -/
def dispatch (k : EvKind) (s : SimState) : SimState :=
  match k with
  | EvKind.evStart => startApplication s
  | EvKind.evStop => stopApplication s
  | EvKind.evSend => sendPacket s

/-- One scheduler step: pop the earliest pending event, advance simulated
time to its fire time and run its callback.  With an empty queue nothing
happens. -/
def step (s : SimState) : SimState :=
  match s.queue with
  | [] => s
  | e :: rest => dispatch e.kind { s with now := e.time, queue := rest }

/-- Run `n` scheduler steps. -/
def run : ℕ → SimState → SimState
  | 0, s => s
  | n + 1, s => run n (step s)

/-- `MyApp::Setup` applied to the default-constructed application
(src/tcpchain.cc lines 80-90 and 108-116): parameters stored, socket
pointer set (the created TCP socket is open), nothing running yet. -/
def setupApp (ps np dr : ℕ) : MyAppState :=
  { m_packetSize := ps, m_nPackets := np, m_dataRate := dr,
    m_sendEvent := none, m_running := false, m_packetsSent := 0,
    m_socketSet := true, m_socketOpen := true,
    m_bound := false, m_connected := false }

/-- The driver state right after `main` configures the application
(src/tcpchain.cc lines 261-267): `Setup` has run and
`SetStartTime t0` / `SetStopTime tStop` have queued the start event
(uid 0) and the stop event (uid 1) at those absolute times. -/
def initSim (ps np dr : ℕ) (t0 tStop : ℚ) : SimState :=
  { now := 0, nextSeq := 2,
    queue := insertEvent ⟨tStop, 1, EvKind.evStop⟩ [⟨t0, 0, EvKind.evStart⟩],
    app := setupApp ps np dr,
    sentLog := [], divByZero := false }

/-- Driver for the double-start scenario of spec §8: identical to
`initSim` except that `StartApplication` is invoked a second time at `t1`
with no intervening stop. -/
def initSimDoubleStart (ps np dr : ℕ) (t0 t1 tStop : ℚ) : SimState :=
  { now := 0, nextSeq := 3,
    queue := insertEvent ⟨tStop, 2, EvKind.evStop⟩
      (insertEvent ⟨t1, 1, EvKind.evStart⟩ [⟨t0, 0, EvKind.evStart⟩]),
    app := setupApp ps np dr,
    sentLog := [], divByZero := false }

/-! ### The congestion-window observer -/

/-- One whitespace-separated field of a trace line: a simulated time in
seconds or a window-size value. -/
inductive TraceField where
  | timeF : ℚ → TraceField
  | valF : ℕ → TraceField
deriving DecidableEq, Repr

/-- The line `CwndChange` appends to the ASCII trace stream
(src/tcpchain.cc line 170): time, old window, new window. -/
def cwndChangeTraceLine (now : ℚ) (oldCwnd newCwnd : ℕ) : List TraceField :=
  [TraceField.timeF now, TraceField.valF oldCwnd, TraceField.valF newCwnd]

/-- The line `CwndChange` logs to the console via `NS_LOG_UNCOND`
(src/tcpchain.cc line 169): time and the new window only. -/
def cwndChangeConsoleLine (now : ℚ) (_oldCwnd newCwnd : ℕ) : List TraceField :=
  [TraceField.timeF now, TraceField.valF newCwnd]

/-- `CwndChange` (src/tcpchain.cc lines 166-171) as a pure observer: from
the sample it produces the trace-file line and the console line and
touches no scheduler or application state (it is a function of the sample
alone). -/
def cwndChange (now : ℚ) (oldCwnd newCwnd : ℕ) : List TraceField × List TraceField :=
  (cwndChangeTraceLine now oldCwnd newCwnd, cwndChangeConsoleLine now oldCwnd newCwnd)

/-! ### The assembled scenario (topology and applications) -/

/-- An IPv4 address as four octets. -/
abbrev Ipv4Addr := ℕ × ℕ × ℕ × ℕ

/-- One point-to-point link of the chain: the two member nodes (in the
order the helper installed the devices), the device attributes, and the
address block `Ipv4AddressHelper.SetBase` assigned to it. -/
structure P2PLinkCfg where
  nodeA : ℕ
  nodeB : ℕ
  dataRateBps : ℕ
  delayMs : ℕ
  netBase : Ipv4Addr
deriving DecidableEq, Repr

/-- A `ReceiveErrorModel` installation: which link, which device of the
link's device container, and the per-packet error rate. -/
structure ErrorModelCfg where
  linkIdx : ℕ
  deviceIdx : ℕ
  errorRate : ℚ
deriving DecidableEq, Repr

/-- The scenario `main` assembles (src/tcpchain.cc lines 180-322). -/
structure Scenario where
  numNodes : ℕ
  links : List P2PLinkCfg
  errorModels : List ErrorModelCfg
  sinkNode : ℕ
  sinkPort : ℕ
  sinkListensAnyAddr : Bool
  genNode : ℕ
  genPeer : Ipv4Addr × ℕ
  genPacketSize : ℕ
  genNPackets : ℕ
  genDataRate : ℕ
  appStart : ℚ
  appStop : ℚ
deriving DecidableEq, Repr

/-- `Ipv4AddressHelper.Assign` hands out host addresses `.1`, `.2` to the
link's devices in container order, inside the link's `/24` block. -/
def ifaceAddress (l : P2PLinkCfg) (devIdx : ℕ) : Ipv4Addr :=
  (l.netBase.1, l.netBase.2.1, l.netBase.2.2.1, devIdx + 1)

/-- The node owning device `devIdx` of a link's device container. -/
def linkNode (l : P2PLinkCfg) (devIdx : ℕ) : ℕ :=
  if devIdx = 0 then l.nodeA else l.nodeB

/-- All interface addresses assigned to a node by the scenario. -/
def nodeAddresses (sc : Scenario) (node : ℕ) : List Ipv4Addr :=
  sc.links.foldr
    (fun l acc =>
      (if linkNode l 0 = node then [ifaceAddress l 0] else []) ++
      (if linkNode l 1 = node then [ifaceAddress l 1] else []) ++ acc) []

/-- The concrete assembly performed by `main` (src/tcpchain.cc):
terms 0-3 as nodes 0-3; three 5 Mbps / 2 ms links 0-1, 1-2, 2-3
(`ndc_hub_3/4/5`) with bases 10.0.0.0, 10.0.1.0, 10.0.2.0; the
`RateErrorModel` with rate 0.00001 on `ndc_hub_3.Get (1)` (device 1 of
link 0); the `PacketSink` on `term_3` listening on any address, port
1090; the `MyApp` generator bound to a TCP socket created on
`term_3.Get (0)`, peer `iface_ndc_hub_3.GetAddress (1)` port 1090,
packet size 1040, 1000 packets, 1 Mbps, start 0 s, stop 20 s. -/
def tcpChainScenario : Scenario :=
  { numNodes := 4,
    links := [⟨0, 1, 5000000, 2, (10, 0, 0, 0)⟩,
              ⟨1, 2, 5000000, 2, (10, 0, 1, 0)⟩,
              ⟨2, 3, 5000000, 2, (10, 0, 2, 0)⟩],
    errorModels := [⟨0, 1, mkRat 1 100000⟩],
    sinkNode := 3, sinkPort := 1090, sinkListensAnyAddr := true,
    genNode := 3,
    genPeer := (ifaceAddress ⟨0, 1, 5000000, 2, (10, 0, 0, 0)⟩ 1, 1090),
    genPacketSize := 1040, genNPackets := 1000, genDataRate := 1000000,
    appStart := 0, appStop := 20 }

/-! ### Explicit run phases

For the generic configuration `(ps, np, dr, t0, tStop)` the run of
`initSim` passes through explicitly describable states; the definitions
below name them.  Throughout, `txInterval ps dr` is the constant
inter-send interval. -/

/-- The state right after the `(j+1)`-st packet was sent while more
packets remain (`j + 2 ≤ np`) and the next send (uid `j+2`) is pending
one interval later.  `j = 0` is the state produced by the start event. -/
def mkActiveJ (ps np dr : ℕ) (t0 tStop : ℚ) (j : ℕ) : SimState :=
  { now := t0 + (j : ℚ) * txInterval ps dr,
    nextSeq := j + 3,
    queue := insertEvent
      ⟨t0 + (j : ℚ) * txInterval ps dr + txInterval ps dr, j + 2, EvKind.evSend⟩
      [⟨tStop, 1, EvKind.evStop⟩],
    app := { m_packetSize := ps, m_nPackets := np, m_dataRate := dr,
             m_sendEvent := some (j + 2), m_running := true, m_packetsSent := j + 1,
             m_socketSet := true, m_socketOpen := true, m_bound := true,
             m_connected := true },
    sentLog := (List.range (j + 1)).map (fun i : ℕ => t0 + (i : ℚ) * txInterval ps dr),
    divByZero := false }

/-- The idle state for `np = j + 2`: the packet budget is exhausted, the
application is still running, only the stop event remains queued, and the
send-event handle refers to the already-fired last send. -/
def mkIdleJ (ps np dr : ℕ) (t0 tStop : ℚ) (j : ℕ) : SimState :=
  { now := t0 + (j : ℚ) * txInterval ps dr + txInterval ps dr,
    nextSeq := j + 3,
    queue := [⟨tStop, 1, EvKind.evStop⟩],
    app := { m_packetSize := ps, m_nPackets := np, m_dataRate := dr,
             m_sendEvent := some (j + 2), m_running := true, m_packetsSent := j + 2,
             m_socketSet := true, m_socketOpen := true, m_bound := true,
             m_connected := true },
    sentLog := (List.range (j + 2)).map (fun i : ℕ => t0 + (i : ℚ) * txInterval ps dr),
    divByZero := false }

/-- The terminal state when the stop event fired from `mkIdleJ j`
(budget exhausted before the stop time). -/
def mkDoneJ (ps np dr : ℕ) (t0 tStop : ℚ) (j : ℕ) : SimState :=
  { now := tStop,
    nextSeq := j + 3,
    queue := [],
    app := { m_packetSize := ps, m_nPackets := np, m_dataRate := dr,
             m_sendEvent := some (j + 2), m_running := false, m_packetsSent := j + 2,
             m_socketSet := true, m_socketOpen := false, m_bound := true,
             m_connected := true },
    sentLog := (List.range (j + 2)).map (fun i : ℕ => t0 + (i : ℚ) * txInterval ps dr),
    divByZero := false }

/-- The terminal state when the stop event fired from `mkActiveJ j` and
cancelled the pending send (stop before the budget was exhausted). -/
def mkStoppedJ (ps np dr : ℕ) (t0 tStop : ℚ) (j : ℕ) : SimState :=
  { now := tStop,
    nextSeq := j + 3,
    queue := [],
    app := { m_packetSize := ps, m_nPackets := np, m_dataRate := dr,
             m_sendEvent := some (j + 2), m_running := false, m_packetsSent := j + 1,
             m_socketSet := true, m_socketOpen := false, m_bound := true,
             m_connected := true },
    sentLog := (List.range (j + 1)).map (fun i : ℕ => t0 + (i : ℚ) * txInterval ps dr),
    divByZero := false }

/-- The idle state for a one-packet budget (`np = 1`): the start event
sent the single packet and never scheduled anything. -/
def mkIdleOne (ps np dr : ℕ) (t0 tStop : ℚ) : SimState :=
  { now := t0,
    nextSeq := 2,
    queue := [⟨tStop, 1, EvKind.evStop⟩],
    app := { m_packetSize := ps, m_nPackets := np, m_dataRate := dr,
             m_sendEvent := none, m_running := true, m_packetsSent := 1,
             m_socketSet := true, m_socketOpen := true, m_bound := true,
             m_connected := true },
    sentLog := [t0],
    divByZero := false }

/-- The terminal state of the one-packet-budget run. -/
def mkDoneOne (ps np dr : ℕ) (t0 tStop : ℚ) : SimState :=
  { now := tStop,
    nextSeq := 2,
    queue := [],
    app := { m_packetSize := ps, m_nPackets := np, m_dataRate := dr,
             m_sendEvent := none, m_running := false, m_packetsSent := 1,
             m_socketSet := true, m_socketOpen := false, m_bound := true,
             m_connected := true },
    sentLog := [t0],
    divByZero := false }

/-! ### The inductive invariant behind claim C4 -/

/-- The invariant spec §3 states for the traffic generator, in the form
the code maintains it: the sent counter never exceeds the packet budget,
and the send-event handle refers to a pending (`IsRunning`) event only
while the application is running with packets remaining. -/
def appInvariant (s : SimState) : Prop :=
  s.app.m_packetsSent ≤ s.app.m_nPackets ∧
  (eventPending s.queue s.app.m_sendEvent = true →
    s.app.m_running = true ∧ s.app.m_packetsSent < s.app.m_nPackets)

/-- The strengthening of `appInvariant` that is preserved by every
scheduler step: uids in the queue are fresh-bounded and distinct, at most
one start event is ever queued and only before the application ran, and
every queued send event is the one the handle refers to. -/
def simInvariant (s : SimState) : Prop :=
  (∀ e ∈ s.queue, e.seq < s.nextSeq) ∧
  s.queue.Pairwise (fun a b => a.seq ≠ b.seq) ∧
  s.queue.countP (fun e => e.kind == EvKind.evStart) ≤ 1 ∧
  (∀ e ∈ s.queue, e.kind = EvKind.evStart →
    s.app.m_running = false ∧ s.app.m_packetsSent = 0 ∧ s.app.m_sendEvent = none) ∧
  (∀ e ∈ s.queue, e.kind = EvKind.evSend → s.app.m_sendEvent = some e.seq) ∧
  appInvariant s

/-! ## Basic scheduler lemmas -/

/- Batteries marks `Rat.add` irreducible; concrete runs of the embedded
scheduler add event times, so let `decide` unfold it in this file. -/
attribute [local semireducible] Rat.add

theorem run_succ_right (n : ℕ) (s : SimState) : run (n + 1) s = step (run n s) := by
  induction n generalizing s with
  | zero => rfl
  | succ n ih =>
    show run (n + 1) (step s) = step (run (n + 1) s)
    rw [ih (step s)]
    rfl

theorem run_add (a b : ℕ) (s : SimState) : run (a + b) s = run b (run a s) := by
  induction a generalizing s with
  | zero => rw [Nat.zero_add]; rfl
  | succ a ih =>
    rw [Nat.succ_add]
    show run (a + b) (step s) = run b (run (a + 1) s)
    exact ih (step s)

theorem step_of_empty {s : SimState} (h : s.queue = []) : step s = s := by
  unfold step
  rw [h]

theorem run_of_empty (n : ℕ) {s : SimState} (h : s.queue = []) : run n s = s := by
  induction n with
  | zero => rfl
  | succ n ih =>
    show run n (step s) = s
    rw [step_of_empty h]
    exact ih

/-! ## Operation-level helper lemmas -/

theorem scheduleTx_app_fields (s : SimState) :
    (scheduleTx s).app.m_packetsSent = s.app.m_packetsSent ∧
    (scheduleTx s).app.m_running = s.app.m_running ∧
    (scheduleTx s).app.m_nPackets = s.app.m_nPackets ∧
    (scheduleTx s).app.m_dataRate = s.app.m_dataRate ∧
    (scheduleTx s).app.m_socketSet = s.app.m_socketSet ∧
    (scheduleTx s).app.m_socketOpen = s.app.m_socketOpen ∧
    (scheduleTx s).sentLog = s.sentLog ∧
    (scheduleTx s).now = s.now := by
  unfold scheduleTx scheduleDelay
  split_ifs <;> simp

theorem scheduleTx_divByZero (s : SimState) (h : s.app.m_dataRate ≠ 0) :
    (scheduleTx s).divByZero = s.divByZero := by
  unfold scheduleTx scheduleDelay
  split_ifs <;> simp_all

theorem sendPacket_packetsSent (s : SimState) :
    (sendPacket s).app.m_packetsSent = s.app.m_packetsSent + 1 := by
  simp only [sendPacket, scheduleTx, scheduleDelay]
  split_ifs <;> simp

theorem sendPacket_dataRate (s : SimState) :
    (sendPacket s).app.m_dataRate = s.app.m_dataRate := by
  simp only [sendPacket, scheduleTx, scheduleDelay]
  split_ifs <;> simp

theorem sendPacket_divByZero (s : SimState) (h : s.app.m_dataRate ≠ 0) :
    (sendPacket s).divByZero = s.divByZero := by
  simp only [sendPacket, scheduleTx, scheduleDelay]
  split_ifs <;> simp_all

theorem startApplication_packetsSent (s : SimState) :
    (startApplication s).app.m_packetsSent = 1 := by
  unfold startApplication
  rw [sendPacket_packetsSent]

theorem startApplication_dataRate (s : SimState) :
    (startApplication s).app.m_dataRate = s.app.m_dataRate := by
  unfold startApplication
  rw [sendPacket_dataRate]

theorem startApplication_divByZero (s : SimState) (h : s.app.m_dataRate ≠ 0) :
    (startApplication s).divByZero = s.divByZero := by
  unfold startApplication
  exact sendPacket_divByZero _ h

theorem stopApplication_dataRate (s : SimState) :
    (stopApplication s).app.m_dataRate = s.app.m_dataRate := by
  simp only [stopApplication]
  split_ifs <;> simp

theorem stopApplication_divByZero (s : SimState) :
    (stopApplication s).divByZero = s.divByZero := by
  simp only [stopApplication]
  split_ifs <;> simp

theorem dispatch_dataRate (k : EvKind) (s : SimState) :
    (dispatch k s).app.m_dataRate = s.app.m_dataRate := by
  cases k with
  | evStart => exact startApplication_dataRate s
  | evStop => exact stopApplication_dataRate s
  | evSend => exact sendPacket_dataRate s

theorem dispatch_divByZero (k : EvKind) (s : SimState) (h : s.app.m_dataRate ≠ 0)
    (h2 : s.divByZero = false) : (dispatch k s).divByZero = false := by
  cases k with
  | evStart => rw [show dispatch EvKind.evStart s = startApplication s from rfl,
      startApplication_divByZero s h]; exact h2
  | evStop => rw [show dispatch EvKind.evStop s = stopApplication s from rfl,
      stopApplication_divByZero s]; exact h2
  | evSend => rw [show dispatch EvKind.evSend s = sendPacket s from rfl,
      sendPacket_divByZero s h]; exact h2

theorem step_dataRate (s : SimState) : (step s).app.m_dataRate = s.app.m_dataRate := by
  unfold step
  cases hq : s.queue with
  | nil => rfl
  | cons e rest => exact dispatch_dataRate e.kind _

theorem step_divByZero (s : SimState) (h : s.app.m_dataRate ≠ 0)
    (h2 : s.divByZero = false) : (step s).divByZero = false := by
  unfold step
  cases hq : s.queue with
  | nil => exact h2
  | cons e rest => exact dispatch_divByZero e.kind _ h h2

theorem eventPending_cancel (q : List SimEvent) (e : Option ℕ) :
    eventPending (cancelEvent e q) e = false := by
  cases e with
  | none => rfl
  | some id =>
    simp only [eventPending, cancelEvent]
    by_contra hcon
    rw [Bool.not_eq_false, List.any_eq_true] at hcon
    obtain ⟨ev, hmem, hbeq⟩ := hcon
    rw [List.mem_filter] at hmem
    have h1 : ev.seq = id := by simpa using hbeq
    have h2 : ev.seq ≠ id := by simpa using hmem.2
    exact h2 h1

theorem stopApplication_running (s : SimState) :
    (stopApplication s).app.m_running = false := by
  simp only [stopApplication]
  split_ifs <;> simp

theorem stopApplication_pending (s : SimState) :
    eventPending (stopApplication s).queue (stopApplication s).app.m_sendEvent = false := by
  simp only [stopApplication]
  split_ifs with h1 h2
  · exact eventPending_cancel _ _
  · exact eventPending_cancel _ _
  · exact Bool.eq_false_iff.mpr h1
  · exact Bool.eq_false_iff.mpr h1

theorem stopApplication_socketSet (s : SimState) :
    (stopApplication s).app.m_socketSet = s.app.m_socketSet := by
  simp only [stopApplication]
  split_ifs <;> simp

theorem stopApplication_socketOpen (s : SimState) (h : s.app.m_socketSet = true) :
    (stopApplication s).app.m_socketOpen = false := by
  simp only [stopApplication]
  split_ifs <;> simp_all

theorem stopApplication_of_stopped (t : SimState) (h1 : t.app.m_running = false)
    (h2 : eventPending t.queue t.app.m_sendEvent = false)
    (h3 : t.app.m_socketSet = true → t.app.m_socketOpen = false) :
    stopApplication t = t := by
  obtain ⟨tn, ts, tq, ta, tl, td⟩ := t
  obtain ⟨f1, f2, f3, f4, f5, f6, f7, f8, f9, f10⟩ := ta
  have h1' : f5 = false := h1
  subst h1'
  have h2' : eventPending tq f4 = false := h2
  by_cases h7 : f7 = true
  · have h8 : f8 = false := h3 h7
    subst h7 h8
    simp [stopApplication, h2']
  · have h7' : f7 = false := by simpa using h7
    subst h7'
    simp [stopApplication, h2']

theorem run_divByZero (n : ℕ) (s : SimState) (h : s.app.m_dataRate ≠ 0)
    (h2 : s.divByZero = false) :
    (run n s).app.m_dataRate = s.app.m_dataRate ∧ (run n s).divByZero = false := by
  induction n generalizing s with
  | zero => exact ⟨rfl, h2⟩
  | succ n ih =>
    show (run n (step s)).app.m_dataRate = s.app.m_dataRate ∧ (run n (step s)).divByZero = false
    have hd := step_dataRate s
    have hz := step_divByZero s h h2
    have := ih (step s) (by rw [hd]; exact h) hz
    exact ⟨by rw [this.1, hd], this.2⟩

/-! ## The inter-send interval -/

theorem txInterval_eq_div (ps dr : ℕ) :
    txInterval ps dr = (((ps * 8) % 4294967296 : ℕ) : ℚ) / (dr : ℚ) := by
  rw [txInterval, Rat.mkRat_eq_div]
  congr 1

theorem txInterval_nonneg (ps dr : ℕ) : 0 ≤ txInterval ps dr := by
  rw [txInterval_eq_div]
  positivity

/-! ## Stepping through the generic run -/

theorem step_cons (s : SimState) (e : SimEvent) (rest : List SimEvent)
    (h : s.queue = e :: rest) :
    step s = dispatch e.kind { s with now := e.time, queue := rest } := by
  unfold step
  rw [h]

theorem initSim_queue (ps np dr : ℕ) (t0 tStop : ℚ) (ht : t0 < tStop) :
    (initSim ps np dr t0 tStop).queue =
      [⟨t0, 0, EvKind.evStart⟩, ⟨tStop, 1, EvKind.evStop⟩] := by
  have hnb : ¬ evBefore ⟨tStop, 1, EvKind.evStop⟩ ⟨t0, 0, EvKind.evStart⟩ := by
    intro hb
    simp only [evBefore] at hb
    rcases hb with hlt | ⟨heq, hseq⟩
    · exact absurd hlt (not_lt.mpr ht.le)
    · omega
  simp [initSim, insertEvent, hnb]

theorem step_init (ps np dr : ℕ) (t0 tStop : ℚ) (hnp : 2 ≤ np) (hdr : dr ≠ 0)
    (ht : t0 < tStop) :
    step (initSim ps np dr t0 tStop) = mkActiveJ ps np dr t0 tStop 0 := by
  rw [step_cons _ _ _ (initSim_queue ps np dr t0 tStop ht)]
  have h1 : (1 : ℕ) < np := by omega
  simp [dispatch, startApplication, sendPacket, scheduleTx, scheduleDelay, initSim,
    setupApp, mkActiveJ, hdr, h1, List.range_succ]

theorem mkActiveJ_queue_lt (ps np dr : ℕ) (t0 tStop : ℚ) (j : ℕ)
    (hlt : t0 + (j : ℚ) * txInterval ps dr + txInterval ps dr < tStop) :
    (mkActiveJ ps np dr t0 tStop j).queue =
      [⟨t0 + (j : ℚ) * txInterval ps dr + txInterval ps dr, j + 2, EvKind.evSend⟩,
       ⟨tStop, 1, EvKind.evStop⟩] := by
  have hb : evBefore
      ⟨t0 + (j : ℚ) * txInterval ps dr + txInterval ps dr, j + 2, EvKind.evSend⟩
      ⟨tStop, 1, EvKind.evStop⟩ := Or.inl hlt
  simp [mkActiveJ, insertEvent, hb]

theorem mkActiveJ_queue_ge (ps np dr : ℕ) (t0 tStop : ℚ) (j : ℕ)
    (hge : tStop ≤ t0 + (j : ℚ) * txInterval ps dr + txInterval ps dr) :
    (mkActiveJ ps np dr t0 tStop j).queue =
      [⟨tStop, 1, EvKind.evStop⟩,
       ⟨t0 + (j : ℚ) * txInterval ps dr + txInterval ps dr, j + 2, EvKind.evSend⟩] := by
  have hnb : ¬ evBefore
      ⟨t0 + (j : ℚ) * txInterval ps dr + txInterval ps dr, j + 2, EvKind.evSend⟩
      ⟨tStop, 1, EvKind.evStop⟩ := by
    intro hb
    simp only [evBefore] at hb
    rcases hb with hlt | ⟨heq, hseq⟩
    · exact absurd hlt (not_lt.mpr hge)
    · omega
  simp [mkActiveJ, insertEvent, hnb]

theorem step_activeJ (ps np dr : ℕ) (t0 tStop : ℚ) (j : ℕ) (hdr : dr ≠ 0)
    (hlt : t0 + (j : ℚ) * txInterval ps dr + txInterval ps dr < tStop)
    (hnp : j + 2 < np) :
    step (mkActiveJ ps np dr t0 tStop j) = mkActiveJ ps np dr t0 tStop (j + 1) := by
  rw [step_cons _ _ _ (mkActiveJ_queue_lt ps np dr t0 tStop j hlt)]
  have hc : j + 1 + 1 < np := by omega
  simp [dispatch, sendPacket, scheduleTx, scheduleDelay, mkActiveJ, hdr, hc,
    List.range_succ]
  repeat' apply And.intro
  all_goals ring_nf

theorem step_activeJ_idle (ps np dr : ℕ) (t0 tStop : ℚ) (j : ℕ)
    (hlt : t0 + (j : ℚ) * txInterval ps dr + txInterval ps dr < tStop)
    (hnp : j + 2 = np) :
    step (mkActiveJ ps np dr t0 tStop j) = mkIdleJ ps np dr t0 tStop j := by
  rw [step_cons _ _ _ (mkActiveJ_queue_lt ps np dr t0 tStop j hlt)]
  have hc : ¬ (j + 1 + 1 < np) := by omega
  simp [dispatch, sendPacket, scheduleTx, mkActiveJ, mkIdleJ, hc, List.range_succ]
  ring

theorem step_activeJ_stop (ps np dr : ℕ) (t0 tStop : ℚ) (j : ℕ)
    (hge : tStop ≤ t0 + (j : ℚ) * txInterval ps dr + txInterval ps dr) :
    step (mkActiveJ ps np dr t0 tStop j) = mkStoppedJ ps np dr t0 tStop j := by
  rw [step_cons _ _ _ (mkActiveJ_queue_ge ps np dr t0 tStop j hge)]
  simp [dispatch, stopApplication, eventPending, cancelEvent, mkActiveJ, mkStoppedJ]

theorem step_idleJ (ps np dr : ℕ) (t0 tStop : ℚ) (j : ℕ) :
    step (mkIdleJ ps np dr t0 tStop j) = mkDoneJ ps np dr t0 tStop j := by
  rw [step_cons _ _ _ rfl]
  simp [dispatch, stopApplication, eventPending, mkIdleJ, mkDoneJ]

theorem step_init_one (ps dr : ℕ) (t0 tStop : ℚ) (ht : t0 < tStop) :
    step (initSim ps 1 dr t0 tStop) = mkIdleOne ps 1 dr t0 tStop := by
  rw [step_cons _ _ _ (initSim_queue ps 1 dr t0 tStop ht)]
  simp [dispatch, startApplication, sendPacket, initSim, setupApp, mkIdleOne]

theorem step_idleOne (ps np dr : ℕ) (t0 tStop : ℚ) :
    step (mkIdleOne ps np dr t0 tStop) = mkDoneOne ps np dr t0 tStop := by
  rw [step_cons _ _ _ rfl]
  simp [dispatch, stopApplication, eventPending, mkIdleOne, mkDoneOne]

theorem sendTime_mono (t0 Δ : ℚ) (hΔ : 0 ≤ Δ) {a b : ℕ} (h : a ≤ b) :
    t0 + (a : ℚ) * Δ ≤ t0 + (b : ℚ) * Δ := by
  have hab : (a : ℚ) ≤ (b : ℚ) := by exact_mod_cast h
  exact add_le_add_left (mul_le_mul_of_nonneg_right hab hΔ) t0

theorem countP_range_lt (K n : ℕ) (h : K ≤ n) :
    (List.range n).countP (fun k => decide (k < K)) = K := by
  induction n with
  | zero =>
    rw [Nat.le_zero] at h
    subst h
    rfl
  | succ n ih =>
    rw [List.range_succ, List.countP_append]
    rcases Nat.lt_or_ge K (n + 1) with h1 | h1
    · have hK : K ≤ n := by omega
      rw [ih hK]
      simp [Nat.not_lt.mpr hK]
    · have hK : K = n + 1 := by omega
      subst hK
      have hall : (List.range n).countP (fun k => decide (k < n + 1)) = n := by
        have := List.countP_eq_length (p := fun k => decide (k < n + 1))
          (l := List.range n)
        rw [List.length_range] at this
        apply this.mpr
        intro a ha
        simp only [decide_eq_true_eq]
        have := List.mem_range.mp ha
        omega
      rw [hall]
      simp

theorem reach_activeJ (ps np dr : ℕ) (t0 tStop : ℚ) (hdr : dr ≠ 0) :
    ∀ j : ℕ, j + 1 < np → t0 + (j : ℚ) * txInterval ps dr < tStop →
      run (j + 1) (initSim ps np dr t0 tStop) = mkActiveJ ps np dr t0 tStop j := by
  intro j
  induction j with
  | zero =>
    intro h1 h2
    have ht : t0 < tStop := by simpa using h2
    show step (initSim ps np dr t0 tStop) = mkActiveJ ps np dr t0 tStop 0
    exact step_init ps np dr t0 tStop (by omega) hdr ht
  | succ j ih =>
    intro h1 h2
    push_cast at h2
    have hlt : t0 + (j : ℚ) * txInterval ps dr + txInterval ps dr < tStop := by
      have hEq : t0 + ((j : ℚ) + 1) * txInterval ps dr =
          t0 + (j : ℚ) * txInterval ps dr + txInterval ps dr := by ring
      rwa [hEq] at h2
    have hj : t0 + (j : ℚ) * txInterval ps dr < tStop := by
      have := txInterval_nonneg ps dr
      linarith
    rw [run_succ_right, ih (by omega) hj]
    exact step_activeJ ps np dr t0 tStop j hdr hlt (by omega)

theorem reach_idleJ (ps np dr : ℕ) (t0 tStop : ℚ) (j : ℕ) (hdr : dr ≠ 0)
    (hnp : np = j + 2)
    (hfit : t0 + (j : ℚ) * txInterval ps dr + txInterval ps dr < tStop) :
    run (j + 2) (initSim ps np dr t0 tStop) = mkIdleJ ps np dr t0 tStop j := by
  have hj : t0 + (j : ℚ) * txInterval ps dr < tStop := by
    have := txInterval_nonneg ps dr
    linarith
  have h1 : run (j + 1) (initSim ps np dr t0 tStop) = mkActiveJ ps np dr t0 tStop j :=
    reach_activeJ ps np dr t0 tStop hdr j (by omega) hj
  show run ((j + 1) + 1) (initSim ps np dr t0 tStop) = mkIdleJ ps np dr t0 tStop j
  rw [run_succ_right, h1]
  exact step_activeJ_idle ps np dr t0 tStop j hfit hnp.symm

theorem run_full (ps np dr : ℕ) (t0 tStop : ℚ) (j : ℕ) (hdr : dr ≠ 0)
    (hnp : np = j + 2)
    (hfit : t0 + (j : ℚ) * txInterval ps dr + txInterval ps dr < tStop) :
    run (np + 1) (initSim ps np dr t0 tStop) = mkDoneJ ps np dr t0 tStop j := by
  subst hnp
  show run ((j + 2) + 1) (initSim ps (j + 2) dr t0 tStop) = mkDoneJ ps (j + 2) dr t0 tStop j
  rw [run_succ_right, reach_idleJ ps (j + 2) dr t0 tStop j hdr rfl hfit, step_idleJ]

theorem run_early (ps np dr : ℕ) (t0 tStop : ℚ) (j : ℕ) (hdr : dr ≠ 0)
    (hj : j + 1 < np)
    (hprev : t0 + (j : ℚ) * txInterval ps dr < tStop)
    (hge : tStop ≤ t0 + (j : ℚ) * txInterval ps dr + txInterval ps dr)
    (n : ℕ) (hn : j + 2 ≤ n) :
    run n (initSim ps np dr t0 tStop) = mkStoppedJ ps np dr t0 tStop j := by
  have h1 := reach_activeJ ps np dr t0 tStop hdr j hj hprev
  have h2 : run (j + 2) (initSim ps np dr t0 tStop) = mkStoppedJ ps np dr t0 tStop j := by
    show run ((j + 1) + 1) (initSim ps np dr t0 tStop) = mkStoppedJ ps np dr t0 tStop j
    rw [run_succ_right, h1]
    exact step_activeJ_stop ps np dr t0 tStop j hge
  obtain ⟨m, rfl⟩ : ∃ m, n = (j + 2) + m := ⟨n - (j + 2), by omega⟩
  rw [run_add, h2, run_of_empty m rfl]

theorem run_one (ps dr : ℕ) (t0 tStop : ℚ) (ht : t0 < tStop) (n : ℕ) (hn : 2 ≤ n) :
    run n (initSim ps 1 dr t0 tStop) = mkDoneOne ps 1 dr t0 tStop := by
  have h2 : run 2 (initSim ps 1 dr t0 tStop) = mkDoneOne ps 1 dr t0 tStop := by
    show run (1 + 1) (initSim ps 1 dr t0 tStop) = mkDoneOne ps 1 dr t0 tStop
    rw [run_succ_right]
    show step (step (initSim ps 1 dr t0 tStop)) = mkDoneOne ps 1 dr t0 tStop
    rw [step_init_one ps dr t0 tStop ht, step_idleOne]
  obtain ⟨m, rfl⟩ : ∃ m, n = 2 + m := ⟨n - 2, by omega⟩
  rw [run_add, h2, run_of_empty m rfl]

/-- The complete characterization of the generic run: after `np + 1`
scheduler steps (enough for start, all sends and the stop) the number of
packets sent is the number of send instants `t0 + k·Δ` (`k < np`) that
fall strictly before the stop time — a send scheduled exactly at the stop
time loses to the earlier-scheduled stop event — and the send log is
exactly that arithmetic progression; the stop has fired and the queue is
empty. -/
theorem run_characterization (ps np dr : ℕ) (t0 tStop : ℚ)
    (hnp : 0 < np) (hdr : 0 < dr) (ht : t0 < tStop) :
    (run (np + 1) (initSim ps np dr t0 tStop)).app.m_packetsSent =
      (List.range np).countP
        (fun k : ℕ => decide (t0 + (k : ℚ) * txInterval ps dr < tStop)) ∧
    (run (np + 1) (initSim ps np dr t0 tStop)).sentLog =
      (List.range ((List.range np).countP
          (fun k : ℕ => decide (t0 + (k : ℚ) * txInterval ps dr < tStop)))).map
        (fun k : ℕ => t0 + (k : ℚ) * txInterval ps dr) ∧
    (run (np + 1) (initSim ps np dr t0 tStop)).app.m_running = false ∧
    (run (np + 1) (initSim ps np dr t0 tStop)).queue = [] := by
  have hΔ0 : 0 ≤ txInterval ps dr := txInterval_nonneg ps dr
  by_cases hall : ∀ k, k < np → t0 + (k : ℚ) * txInterval ps dr < tStop
  · have hcount : (List.range np).countP
        (fun k : ℕ => decide (t0 + (k : ℚ) * txInterval ps dr < tStop)) = np := by
      have h := List.countP_eq_length
        (p := fun k : ℕ => decide (t0 + (k : ℚ) * txInterval ps dr < tStop))
        (l := List.range np)
      rw [List.length_range] at h
      apply h.mpr
      intro a ha
      simp only [decide_eq_true_eq]
      exact hall a (List.mem_range.mp ha)
    rcases Nat.lt_or_ge np 2 with h2 | h2
    · have hnp1 : np = 1 := by omega
      subst hnp1
      rw [run_one ps dr t0 tStop ht (1 + 1) (by omega)]
      refine ⟨by rw [hcount]; rfl, ?_, rfl, rfl⟩
      rw [hcount]
      simp [mkDoneOne, List.range_succ]
    · obtain ⟨j, rfl⟩ : ∃ j, np = j + 2 := ⟨np - 2, by omega⟩
      have hfit : t0 + (j : ℚ) * txInterval ps dr + txInterval ps dr < tStop := by
        have hj1 := hall (j + 1) (by omega)
        push_cast at hj1
        have hEq : t0 + ((j : ℚ) + 1) * txInterval ps dr =
            t0 + (j : ℚ) * txInterval ps dr + txInterval ps dr := by ring
        rwa [hEq] at hj1
      rw [run_full ps (j + 2) dr t0 tStop j hdr.ne' rfl hfit]
      refine ⟨by rw [hcount]; rfl, ?_, rfl, rfl⟩
      rw [hcount]
      simp [mkDoneJ]
  · push_neg at hall
    obtain ⟨k0, hk0np, hk0⟩ := hall
    have hex : ∃ k : ℕ, tStop ≤ t0 + (k : ℚ) * txInterval ps dr := ⟨k0, hk0⟩
    have hK1 : 0 < Nat.find hex := by
      rw [Nat.find_pos]
      simp only [Nat.cast_zero, zero_mul, add_zero, not_le]
      exact ht
    obtain ⟨j, hj⟩ : ∃ j, Nat.find hex = j + 1 := ⟨Nat.find hex - 1, by omega⟩
    have hprev : t0 + (j : ℚ) * txInterval ps dr < tStop :=
      not_le.mp (Nat.find_min hex (by omega : j < Nat.find hex))
    have hgeK : tStop ≤ t0 + ((Nat.find hex : ℕ) : ℚ) * txInterval ps dr :=
      Nat.find_spec hex
    rw [hj] at hgeK
    push_cast at hgeK
    have hge : tStop ≤ t0 + (j : ℚ) * txInterval ps dr + txInterval ps dr := by
      have hEq : t0 + ((j : ℚ) + 1) * txInterval ps dr =
          t0 + (j : ℚ) * txInterval ps dr + txInterval ps dr := by ring
      rwa [hEq] at hgeK
    have hjnp : j + 1 < np := by
      have hle : Nat.find hex ≤ k0 := Nat.find_min' hex hk0
      omega
    rw [run_early ps np dr t0 tStop j hdr.ne' hjnp hprev hge (np + 1) (by omega)]
    have hcongr : ∀ a ∈ List.range np,
        ((fun k : ℕ => decide (t0 + (k : ℚ) * txInterval ps dr < tStop)) a ↔
          (fun k : ℕ => decide (k < j + 1)) a) := by
      intro a ha
      simp only [decide_eq_true_eq]
      constructor
      · intro hP
        by_contra hq
        have hgea : j + 1 ≤ a := by omega
        have hmono := sendTime_mono t0 (txInterval ps dr) hΔ0 hgea
        push_cast at hmono
        have : tStop ≤ t0 + (a : ℚ) * txInterval ps dr := by
          calc tStop ≤ t0 + (j : ℚ) * txInterval ps dr + txInterval ps dr := hge
            _ = t0 + ((j : ℚ) + 1) * txInterval ps dr := by ring
            _ ≤ t0 + (a : ℚ) * txInterval ps dr := hmono
        linarith
      · intro hlt
        exact not_le.mp (Nat.find_min hex (by omega))
    have hcount : (List.range np).countP
        (fun k : ℕ => decide (t0 + (k : ℚ) * txInterval ps dr < tStop)) = j + 1 := by
      rw [List.countP_congr hcongr, countP_range_lt (j + 1) np (by omega)]
    refine ⟨by rw [hcount]; rfl, ?_, rfl, rfl⟩
    rw [hcount]
    simp [mkStoppedJ]

/-! ## Queue and operation lemmas for the invariant -/

theorem insertEvent_perm (e : SimEvent) (l : List SimEvent) :
    List.Perm (insertEvent e l) (e :: l) := by
  induction l with
  | nil => rfl
  | cons f rest ih =>
    rw [insertEvent]
    split_ifs
    · exact List.Perm.refl _
    · exact (ih.cons f).trans (List.Perm.swap e f rest)

theorem mem_insertEvent (a e : SimEvent) (l : List SimEvent) :
    a ∈ insertEvent e l ↔ a = e ∨ a ∈ l := by
  rw [(insertEvent_perm e l).mem_iff]
  exact List.mem_cons

theorem eventPending_of_mem (q : List SimEvent) (x : SimEvent) (hx : x ∈ q) :
    eventPending q (some x.seq) = true := by
  simp only [eventPending, List.any_eq_true]
  exact ⟨x, hx, by simp⟩

theorem eventPending_eq_false (q : List SimEvent) (id : ℕ)
    (h : ∀ x ∈ q, x.seq ≠ id) : eventPending q (some id) = false := by
  simp only [eventPending]
  rw [List.any_eq_false]
  intro x hx
  simpa using h x hx

theorem scheduleTx_nPackets (s : SimState) :
    (scheduleTx s).app.m_nPackets = s.app.m_nPackets :=
  (scheduleTx_app_fields s).2.2.1

theorem sendPacket_nPackets (s : SimState) :
    (sendPacket s).app.m_nPackets = s.app.m_nPackets := by
  simp only [sendPacket, scheduleTx, scheduleDelay]
  split_ifs <;> simp

theorem startApplication_nPackets (s : SimState) :
    (startApplication s).app.m_nPackets = s.app.m_nPackets := by
  unfold startApplication
  rw [sendPacket_nPackets]

theorem stopApplication_nPackets (s : SimState) :
    (stopApplication s).app.m_nPackets = s.app.m_nPackets := by
  simp only [stopApplication]
  split_ifs <;> simp

theorem dispatch_nPackets (k : EvKind) (s : SimState) :
    (dispatch k s).app.m_nPackets = s.app.m_nPackets := by
  cases k with
  | evStart => exact startApplication_nPackets s
  | evStop => exact stopApplication_nPackets s
  | evSend => exact sendPacket_nPackets s

theorem step_nPackets (s : SimState) : (step s).app.m_nPackets = s.app.m_nPackets := by
  unfold step
  cases hq : s.queue with
  | nil => rfl
  | cons e rest => exact dispatch_nPackets e.kind _

theorem scheduleTx_eq_of (s : SimState) (hrun : s.app.m_running = true)
    (hdr : s.app.m_dataRate ≠ 0) :
    scheduleTx s =
      { s with
          queue :=
            insertEvent
              ⟨s.now + txInterval s.app.m_packetSize s.app.m_dataRate, s.nextSeq,
                EvKind.evSend⟩
              s.queue,
          nextSeq := s.nextSeq + 1,
          app := { s.app with m_sendEvent := some s.nextSeq } } := by
  simp [scheduleTx, scheduleDelay, hrun, hdr]

theorem scheduleTx_eq_zero (s : SimState) (hrun : s.app.m_running = true)
    (hdr : s.app.m_dataRate = 0) :
    scheduleTx s = { s with divByZero := true } := by
  simp [scheduleTx, hrun, hdr]

theorem sendPacket_eq (s : SimState)
    (h : s.app.m_packetsSent + 1 < s.app.m_nPackets) :
    sendPacket s = scheduleTx
      { s with
          sentLog := s.sentLog ++ [s.now],
          app := { s.app with m_packetsSent := s.app.m_packetsSent + 1 } } := by
  simp [sendPacket, h]

theorem sendPacket_eq_last (s : SimState)
    (h : ¬ (s.app.m_packetsSent + 1 < s.app.m_nPackets)) :
    sendPacket s =
      { s with
          sentLog := s.sentLog ++ [s.now],
          app := { s.app with m_packetsSent := s.app.m_packetsSent + 1 } } := by
  simp [sendPacket, h]

theorem startApplication_eq (s : SimState) :
    startApplication s = sendPacket
      { s with
          app := { s.app with m_running := true, m_packetsSent := 0, m_bound := true, m_connected := true } } := rfl

theorem stopApplication_queue_sublist (s : SimState) :
    (stopApplication s).queue.Sublist s.queue := by
  simp only [stopApplication]
  split_ifs
  · cases he : s.app.m_sendEvent with
    | none => simp [cancelEvent]
    | some id => simp [cancelEvent, List.filter_sublist]
  · cases he : s.app.m_sendEvent with
    | none => simp [cancelEvent]
    | some id => simp [cancelEvent, List.filter_sublist]
  · simp
  · simp

theorem stopApplication_sendEvent (s : SimState) :
    (stopApplication s).app.m_sendEvent = s.app.m_sendEvent := by
  simp only [stopApplication]
  split_ifs <;> simp

theorem stopApplication_packetsSent (s : SimState) :
    (stopApplication s).app.m_packetsSent = s.app.m_packetsSent := by
  simp only [stopApplication]
  split_ifs <;> simp

theorem stopApplication_nextSeq (s : SimState) :
    (stopApplication s).nextSeq = s.nextSeq := by
  simp only [stopApplication]
  split_ifs <;> simp

/-! ## Preservation of the invariant -/

theorem simInvariant_sendPacket (s : SimState)
    (hrun : s.app.m_running = true)
    (hsentlt : s.app.m_packetsSent < s.app.m_nPackets)
    (hseq : ∀ x ∈ s.queue, x.seq < s.nextSeq)
    (hpair : s.queue.Pairwise (fun a b => a.seq ≠ b.seq))
    (hstart0 : s.queue.countP (fun e => e.kind == EvKind.evStart) = 0)
    (hsend0 : ∀ x ∈ s.queue, x.kind ≠ EvKind.evSend)
    (hpendf : eventPending s.queue s.app.m_sendEvent = false) :
    simInvariant (sendPacket s) := by
  have hsymm : ∀ {x y : SimEvent}, x.seq ≠ y.seq → y.seq ≠ x.seq := fun h => Ne.symm h
  by_cases h1 : s.app.m_packetsSent + 1 < s.app.m_nPackets
  · rw [sendPacket_eq s h1]
    by_cases hdr : s.app.m_dataRate = 0
    · rw [scheduleTx_eq_zero _ (by exact hrun) (by exact hdr)]
      refine ⟨hseq, hpair, ?_, ?_, ?_, ?_, ?_⟩
      · show s.queue.countP (fun e => e.kind == EvKind.evStart) ≤ 1
        rw [hstart0]
        exact Nat.zero_le 1
      · intro x hx hk
        have : x.kind ≠ EvKind.evStart := by
          simpa using List.countP_eq_zero.mp hstart0 x hx
        exact absurd hk this
      · intro x hx hk
        exact absurd hk (hsend0 x hx)
      · show s.app.m_packetsSent + 1 ≤ s.app.m_nPackets
        omega
      · intro hp
        have hp2 : eventPending s.queue s.app.m_sendEvent = true := hp
        rw [hpendf] at hp2
        exact Bool.noConfusion hp2
    · rw [scheduleTx_eq_of _ (by exact hrun) (by exact hdr)]
      refine ⟨?_, ?_, ?_, ?_, ?_, ?_, ?_⟩
      · intro x hx
        rw [mem_insertEvent] at hx
        rcases hx with rfl | hx
        · show s.nextSeq < s.nextSeq + 1
          omega
        · have := hseq x hx
          show x.seq < s.nextSeq + 1
          omega
      · show (insertEvent _ s.queue).Pairwise (fun a b => a.seq ≠ b.seq)
        rw [(insertEvent_perm _ s.queue).pairwise_iff hsymm]
        rw [List.pairwise_cons]
        refine ⟨?_, hpair⟩
        intro b hb
        exact (Nat.ne_of_lt (hseq b hb)).symm
      · show (insertEvent _ s.queue).countP (fun e => e.kind == EvKind.evStart) ≤ 1
        rw [(insertEvent_perm _ s.queue).countP_eq]
        rw [List.countP_cons_of_neg]
        · rw [hstart0]
          exact Nat.zero_le 1
        · simp
      · intro x hx hk
        rw [mem_insertEvent] at hx
        rcases hx with rfl | hx
        · exact absurd hk (by simp)
        · have : x.kind ≠ EvKind.evStart := by
            simpa using List.countP_eq_zero.mp hstart0 x hx
          exact absurd hk this
      · intro x hx hk
        rw [mem_insertEvent] at hx
        rcases hx with rfl | hx
        · rfl
        · exact absurd hk (hsend0 x hx)
      · show s.app.m_packetsSent + 1 ≤ s.app.m_nPackets
        omega
      · intro _
        exact ⟨hrun, h1⟩
  · rw [sendPacket_eq_last s h1]
    refine ⟨hseq, hpair, ?_, ?_, ?_, ?_, ?_⟩
    · show s.queue.countP (fun e => e.kind == EvKind.evStart) ≤ 1
      rw [hstart0]
      exact Nat.zero_le 1
    · intro x hx hk
      have : x.kind ≠ EvKind.evStart := by
        simpa using List.countP_eq_zero.mp hstart0 x hx
      exact absurd hk this
    · intro x hx hk
      exact absurd hk (hsend0 x hx)
    · show s.app.m_packetsSent + 1 ≤ s.app.m_nPackets
      omega
    · intro hp
      have hp2 : eventPending s.queue s.app.m_sendEvent = true := hp
      rw [hpendf] at hp2
      exact Bool.noConfusion hp2

theorem simInvariant_stopApplication (s : SimState)
    (hseq : ∀ x ∈ s.queue, x.seq < s.nextSeq)
    (hpair : s.queue.Pairwise (fun a b => a.seq ≠ b.seq))
    (hstartc : s.queue.countP (fun e => e.kind == EvKind.evStart) ≤ 1)
    (hstart : ∀ x ∈ s.queue, x.kind = EvKind.evStart →
      s.app.m_packetsSent = 0 ∧ s.app.m_sendEvent = none)
    (hsend : ∀ x ∈ s.queue, x.kind = EvKind.evSend → s.app.m_sendEvent = some x.seq)
    (hsent : s.app.m_packetsSent ≤ s.app.m_nPackets) :
    simInvariant (stopApplication s) := by
  have hsub := stopApplication_queue_sublist s
  refine ⟨?_, ?_, ?_, ?_, ?_, ?_, ?_⟩
  · intro x hx
    rw [stopApplication_nextSeq]
    exact hseq x (hsub.subset hx)
  · exact hpair.sublist hsub
  · exact le_trans (hsub.countP_le _) hstartc
  · intro x hx hk
    refine ⟨stopApplication_running s, ?_, ?_⟩
    · rw [stopApplication_packetsSent]
      exact (hstart x (hsub.subset hx) hk).1
    · rw [stopApplication_sendEvent]
      exact (hstart x (hsub.subset hx) hk).2
  · intro x hx hk
    rw [stopApplication_sendEvent]
    exact hsend x (hsub.subset hx) hk
  · rw [stopApplication_packetsSent, stopApplication_nPackets]
    exact hsent
  · intro hp
    rw [stopApplication_pending s] at hp
    exact Bool.noConfusion hp

theorem simInvariant_step (s : SimState) (hnp : 0 < s.app.m_nPackets)
    (h : simInvariant s) : simInvariant (step s) := by
  obtain ⟨hseq, hpair, hstartc, hstart, hsend, hsent, hpend⟩ := h
  cases hq : s.queue with
  | nil =>
    rw [step_of_empty hq]
    exact ⟨hseq, hpair, hstartc, hstart, hsend, hsent, hpend⟩
  | cons e rest =>
    rw [step_cons s e rest hq]
    rw [hq] at hseq hpair hstartc hstart hsend hpend
    have hseqr : ∀ x ∈ rest, x.seq < s.nextSeq :=
      fun x hx => hseq x (List.mem_cons_of_mem e hx)
    have hpairr := List.Pairwise.of_cons hpair
    have heneq : ∀ x ∈ rest, e.seq ≠ x.seq := (List.pairwise_cons.mp hpair).1
    cases hk : e.kind with
    | evStart =>
      obtain ⟨hrun0, hsent0, hsev0⟩ := hstart e (List.mem_cons_self e rest) hk
      have hnostart : rest.countP (fun x => x.kind == EvKind.evStart) = 0 := by
        rw [List.countP_cons_of_pos] at hstartc
        · omega
        · simp [hk]
      have hnosend : ∀ x ∈ rest, x.kind ≠ EvKind.evSend := by
        intro x hx hkx
        have h2 := hsend x (List.mem_cons_of_mem e hx) hkx
        rw [hsev0] at h2
        exact Option.noConfusion h2
      show simInvariant (startApplication { s with now := e.time, queue := rest })
      rw [startApplication_eq]
      apply simInvariant_sendPacket
      · rfl
      · exact hnp
      · exact hseqr
      · exact hpairr
      · exact hnostart
      · exact hnosend
      · show eventPending rest s.app.m_sendEvent = false
        rw [hsev0]
        rfl
    | evSend =>
      have hsevE : s.app.m_sendEvent = some e.seq :=
        hsend e (List.mem_cons_self e rest) hk
      have hpd : eventPending (e :: rest) s.app.m_sendEvent = true := by
        rw [hsevE]
        exact eventPending_of_mem _ e (List.mem_cons_self e rest)
      obtain ⟨hrun, hlt⟩ := hpend hpd
      have hnostart : rest.countP (fun x => x.kind == EvKind.evStart) = 0 := by
        rw [List.countP_eq_zero]
        intro x hx
        simp only [beq_iff_eq]
        intro hkx
        have h2 := (hstart x (List.mem_cons_of_mem e hx) hkx).1
        rw [hrun] at h2
        exact Bool.noConfusion h2
      have hnosend : ∀ x ∈ rest, x.kind ≠ EvKind.evSend := by
        intro x hx hkx
        have h2 := hsend x (List.mem_cons_of_mem e hx) hkx
        rw [hsevE] at h2
        exact heneq x hx (Option.some.inj h2)
      show simInvariant (sendPacket { s with now := e.time, queue := rest })
      apply simInvariant_sendPacket
      · exact hrun
      · exact hlt
      · exact hseqr
      · exact hpairr
      · exact hnostart
      · exact hnosend
      · show eventPending rest s.app.m_sendEvent = false
        rw [hsevE]
        exact eventPending_eq_false rest e.seq (fun x hx => (heneq x hx).symm)
    | evStop =>
      show simInvariant (stopApplication { s with now := e.time, queue := rest })
      apply simInvariant_stopApplication
      · exact hseqr
      · exact hpairr
      · show rest.countP (fun e => e.kind == EvKind.evStart) ≤ 1
        rw [List.countP_cons] at hstartc
        split_ifs at hstartc <;> omega
      · intro x hx hkx
        exact ⟨(hstart x (List.mem_cons_of_mem e hx) hkx).2.1,
          (hstart x (List.mem_cons_of_mem e hx) hkx).2.2⟩
      · intro x hx hkx
        exact hsend x (List.mem_cons_of_mem e hx) hkx
      · exact hsent

theorem simInvariant_initSim (ps np dr : ℕ) (t0 tStop : ℚ) :
    simInvariant (initSim ps np dr t0 tStop) := by
  unfold simInvariant initSim setupApp appInvariant insertEvent
  split_ifs <;>
    refine ⟨?_, ?_, ?_, ?_, ?_, ?_, ?_⟩ <;>
      simp [eventPending, insertEvent]

theorem simInvariant_run (n : ℕ) (s : SimState) (hnp : 0 < s.app.m_nPackets)
    (h : simInvariant s) :
    simInvariant (run n s) := by
  induction n generalizing s with
  | zero => exact h
  | succ n ih =>
    show simInvariant (run n (step s))
    have hnp2 : 0 < (step s).app.m_nPackets := by
      rw [step_nPackets]
      exact hnp
    exact ih (step s) hnp2 (simInvariant_step s hnp h)

/-- Claim C4: given `packetCount > 0`, every state of the scenario run —
the freshly configured state and every state reached by dispatching
start, send/schedule and stop events — satisfies the generator invariant:
the sent counter never exceeds the packet budget, and the send-event
handle refers to a pending (`IsRunning`) event only while the application
is running with packets remaining. -/
theorem claim_C4_invariant (ps np dr : ℕ) (t0 tStop : ℚ) (hnp : 0 < np) (n : ℕ) :
    (run n (initSim ps np dr t0 tStop)).app.m_packetsSent ≤
      (run n (initSim ps np dr t0 tStop)).app.m_nPackets ∧
    (eventPending (run n (initSim ps np dr t0 tStop)).queue
        (run n (initSim ps np dr t0 tStop)).app.m_sendEvent = true →
      (run n (initSim ps np dr t0 tStop)).app.m_running = true ∧
      (run n (initSim ps np dr t0 tStop)).app.m_packetsSent <
        (run n (initSim ps np dr t0 tStop)).app.m_nPackets) := by
  have h := simInvariant_run n (initSim ps np dr t0 tStop) hnp
    (simInvariant_initSim ps np dr t0 tStop)
  exact h.2.2.2.2.2

/-- Witness for C4 at the scenario configuration after two scheduler
steps. -/
theorem claim_C4_invariant_witness :
    0 < (1000 : ℕ) ∧
    (run 2 (initSim 1040 1000 1000000 0 20)).app.m_packetsSent ≤
      (run 2 (initSim 1040 1000 1000000 0 20)).app.m_nPackets :=
  ⟨by decide, (claim_C4_invariant 1040 1000 1000000 0 20 (by decide) 2).1⟩

/-! ## Claims C1 and C2 -/

/-- Counterexample to claim C1 as stated: the claim takes the inter-send
interval to be `packetSize·8/dataRate` seconds, but the program computes
`m_packetSize * 8` in `uint32_t` (src/tcpchain.cc line 161), wrapping
modulo 2^32.  At `packetSize = 2^29 = 536870912`, `packetCount = 2`,
`dataRate = 8` over a 20 s run from t = 0, the wrapped product is 0, so
the program sends BOTH packets (at t = 0): but the claimed interval is
`2^29·8/8 = 2^29 s`, under which the run's duration falls short of
`packetCount` such intervals and only ONE send instant fits before the
stop (`0 + 1·2^29 < 20` fails) — the claim predicts a sent count of 1
where the program produces 2. -/
theorem claim_C1_counterexample :
    (run (2 + 1) (initSim 536870912 2 8 0 20)).app.m_packetsSent = 2 ∧
    ¬ ((2 : ℚ) * (((536870912 * 8 : ℕ) : ℚ) / (8 : ℚ)) ≤ 20 - 0) ∧
    (List.range 2).countP
      (fun k : ℕ =>
        decide ((0 : ℚ) + (k : ℚ) * (((536870912 * 8 : ℕ) : ℚ) / (8 : ℚ)) < 20)) = 1 := by
  refine ⟨by decide, by norm_num, ?_⟩
  rw [show List.range 2 = [0, 1] by decide]
  rw [List.countP_cons, List.countP_cons, List.countP_nil]
  norm_num

/-- Claim C1 amended: same statement, with the inter-send interval being
the one the program computes — `((packetSize·8) mod 2^32)/dataRate`
seconds (`txInterval`), which equals `packetSize·8/dataRate` whenever
`packetSize·8 < 2^32`, in particular in the concrete scenario.  For
every valid configuration the total number of packets sent is
`packetCount` whenever the run lasts at least `packetCount` such
intervals, and otherwise the number of send instants that fall before
the stop time; concretely, with 1040-byte packets, a 1000-packet budget
and 1 Mbps over a 20 s run from t = 0, all 1000 packets are sent by
t = 8.32 s (after 1000 scheduler steps the counter reads 1000 with the
application still running, nothing but the stop event queued and no
pending send), and the application stays idle until its stop at t = 20 s
(step 1001). -/
theorem claim_C1_send_count (ps np dr : ℕ) (t0 tStop : ℚ)
    (_hps : 0 < ps) (hnp : 0 < np) (hdr : 0 < dr) (ht : t0 < tStop) :
    ((run (np + 1) (initSim ps np dr t0 tStop)).app.m_packetsSent =
        (List.range np).countP
          (fun k : ℕ => decide (t0 + (k : ℚ) * txInterval ps dr < tStop)) ∧
      ((np : ℚ) * txInterval ps dr ≤ tStop - t0 →
        (run (np + 1) (initSim ps np dr t0 tStop)).app.m_packetsSent = np)) ∧
    ((run 1000 (initSim 1040 1000 1000000 0 20)).app.m_packetsSent = 1000 ∧
      (run 1000 (initSim 1040 1000 1000000 0 20)).app.m_running = true ∧
      (run 1000 (initSim 1040 1000 1000000 0 20)).queue = [⟨20, 1, EvKind.evStop⟩] ∧
      (run 1000 (initSim 1040 1000 1000000 0 20)).now ≤ 832 / 100 ∧
      eventPending (run 1000 (initSim 1040 1000 1000000 0 20)).queue
        (run 1000 (initSim 1040 1000 1000000 0 20)).app.m_sendEvent = false ∧
      (run 1001 (initSim 1040 1000 1000000 0 20)).app.m_running = false ∧
      (run 1001 (initSim 1040 1000 1000000 0 20)).now = 20 ∧
      (run 1001 (initSim 1040 1000 1000000 0 20)).app.m_packetsSent = 1000) := by
  constructor
  · constructor
    · exact (run_characterization ps np dr t0 tStop hnp hdr ht).1
    · intro hdur
      rw [(run_characterization ps np dr t0 tStop hnp hdr ht).1]
      have h := List.countP_eq_length
        (p := fun k : ℕ => decide (t0 + (k : ℚ) * txInterval ps dr < tStop))
        (l := List.range np)
      rw [List.length_range] at h
      apply h.mpr
      intro a ha
      simp only [decide_eq_true_eq]
      have hak : a < np := List.mem_range.mp ha
      have hcast : (a : ℚ) < (np : ℚ) := by exact_mod_cast hak
      rcases eq_or_lt_of_le (txInterval_nonneg ps dr) with hΔ | hΔ
      · rw [← hΔ]
        simpa using ht
      · nlinarith
  · have hfit : (0 : ℚ) + (998 : ℚ) * txInterval 1040 1000000 +
        txInterval 1040 1000000 < 20 := by
      rw [txInterval_eq_div]
      norm_num
    have hidle := reach_idleJ 1040 1000 1000000 0 20 998 (by norm_num) (by norm_num) hfit
    have h1000 : run 1000 (initSim 1040 1000 1000000 0 20) =
        mkIdleJ 1040 1000 1000000 0 20 998 := by
      rw [show (1000 : ℕ) = 998 + 2 by norm_num]
      exact hidle
    have h1001 : run 1001 (initSim 1040 1000 1000000 0 20) =
        mkDoneJ 1040 1000 1000000 0 20 998 := by
      rw [show (1001 : ℕ) = (998 + 2) + 1 by norm_num, run_succ_right, hidle, step_idleJ]
    refine ⟨by rw [h1000]; rfl, by rw [h1000]; rfl, by rw [h1000]; rfl, ?_, ?_,
      by rw [h1001]; rfl, by rw [h1001]; rfl, by rw [h1001]; rfl⟩
    · rw [h1000]
      show (0 : ℚ) + (998 : ℚ) * txInterval 1040 1000000 + txInterval 1040 1000000 ≤ 832 / 100
      rw [txInterval_eq_div]
      norm_num
    · rw [h1000]
      decide

/-- Witness for C1 at a small valid configuration (1-byte packets, budget
2, 8 bit/s, run over [0, 20]). -/
theorem claim_C1_send_count_witness :
    0 < (1 : ℕ) ∧ 0 < (2 : ℕ) ∧ 0 < (8 : ℕ) ∧ (0 : ℚ) < 20 ∧
    (run (2 + 1) (initSim 1 2 8 0 20)).app.m_packetsSent =
      (List.range 2).countP
        (fun k : ℕ => decide ((0 : ℚ) + (k : ℚ) * txInterval 1 8 < 20)) :=
  ⟨by decide, by decide, by decide, by decide,
   (claim_C1_send_count 1 2 8 0 20 (by decide) (by decide) (by decide) (by decide)).1.1⟩

/-- Counterexample to claim C2 as stated: at `packetSize = 2^29`,
`packetCount = 2`, `dataRate = 8` the program's send log is `[0, 0]`
(the uint32 product `2^29 · 8` wraps to 0, src/tcpchain.cc line 161),
but an arithmetic progression with first element 0 and common difference
`packetSize·8/dataRate = 2^29` would place the second send at
`0 + 1·2^29 ≠ 0`. -/
theorem claim_C2_counterexample :
    (run (2 + 1) (initSim 536870912 2 8 0 20)).sentLog = [0, 0] ∧
    ¬ ((0 : ℚ) + (1 : ℚ) * (((536870912 * 8 : ℕ) : ℚ) / (8 : ℚ)) = 0) :=
  ⟨by decide, by norm_num⟩

/-- Claim C2 amended: the transmit timestamps recorded by the send loop
form an arithmetic progression starting at the application's start time
whose common difference is the interval the program computes —
`((packetSize·8) mod 2^32)/dataRate` seconds (`txInterval`), equal to
`packetSize·8/dataRate` whenever `packetSize·8 < 2^32`: the send log
equals `[t0, t0 + Δ, …]` with one entry per sent packet, and its first
element is `t0` (the first send happens at start, with no initial
delay). -/
theorem claim_C2_send_times (ps np dr : ℕ) (t0 tStop : ℚ)
    (_hps : 0 < ps) (hnp : 0 < np) (hdr : 0 < dr) (ht : t0 < tStop) :
    (run (np + 1) (initSim ps np dr t0 tStop)).sentLog =
      (List.range (run (np + 1) (initSim ps np dr t0 tStop)).app.m_packetsSent).map
        (fun k : ℕ => t0 + (k : ℚ) * txInterval ps dr) ∧
    (run (np + 1) (initSim ps np dr t0 tStop)).sentLog.head? = some t0 := by
  obtain ⟨hc, hlog, -, -⟩ := run_characterization ps np dr t0 tStop hnp hdr ht
  constructor
  · rw [hlog, hc]
  · rw [hlog]
    have h0 : 0 < (List.range np).countP
        (fun k : ℕ => decide (t0 + (k : ℚ) * txInterval ps dr < tStop)) := by
      rw [List.countP_pos_iff]
      refine ⟨0, List.mem_range.mpr hnp, ?_⟩
      simpa using ht
    obtain ⟨m, hm⟩ : ∃ m, (List.range np).countP
        (fun k : ℕ => decide (t0 + (k : ℚ) * txInterval ps dr < tStop)) = m + 1 :=
      Nat.exists_eq_succ_of_ne_zero (Nat.pos_iff_ne_zero.mp h0)
    rw [hm, List.range_succ_eq_map]
    simp

/-- Witness for C2 at the same small configuration. -/
theorem claim_C2_send_times_witness :
    0 < (1 : ℕ) ∧ 0 < (2 : ℕ) ∧ 0 < (8 : ℕ) ∧ (0 : ℚ) < 20 ∧
    (run (2 + 1) (initSim 1 2 8 0 20)).sentLog.head? = some (0 : ℚ) :=
  ⟨by decide, by decide, by decide, by decide,
   (claim_C2_send_times 1 2 8 0 20 (by decide) (by decide) (by decide) (by decide)).2⟩

/-! ## Claim theorems (C3, C5, C6, C7, C8, C9, C10) -/

/-- Claim C3: the scenario is supposed to contain one sink and one
traffic generator whose single TCP flow crosses the chain to the sink:
the generator's peer address should be an address the sink listens at, on
a node distinct from the generator's.  The code as written violates this:
`main` creates the generator's socket and installs the `MyApp` on
`term_3` — the very node carrying the sink — and configures the peer as
`iface_ndc_hub_3.GetAddress (1)` = 10.0.0.2, which is an address of
`term_1` (node 1), not of the sink's node.  This theorem evaluates the
embedded assembly and exhibits the divergence. -/
theorem claim_C3_generator_wiring :
    tcpChainScenario.genNode = tcpChainScenario.sinkNode ∧
    tcpChainScenario.genPeer.1 ∉
      nodeAddresses tcpChainScenario tcpChainScenario.sinkNode ∧
    tcpChainScenario.genPeer.1 ∈ nodeAddresses tcpChainScenario 1 ∧
    tcpChainScenario.sinkNode ≠ 1 ∧
    tcpChainScenario.genPeer.1 = (10, 0, 0, 2) := by
  decide

/-- Claim C5: `StopApplication` clears the running flag, leaves no
pending send event, closes the socket when one exists, and is idempotent
(stopping a stopped — or never started — application changes nothing). -/
theorem claim_C5_stop_idempotent (s : SimState) :
    (stopApplication s).app.m_running = false ∧
    eventPending (stopApplication s).queue (stopApplication s).app.m_sendEvent = false ∧
    (s.app.m_socketSet = true → (stopApplication s).app.m_socketOpen = false) ∧
    stopApplication (stopApplication s) = stopApplication s :=
  ⟨stopApplication_running s, stopApplication_pending s, stopApplication_socketOpen s,
   stopApplication_of_stopped _ (stopApplication_running s) (stopApplication_pending s)
     (fun hs => stopApplication_socketOpen s (by rwa [stopApplication_socketSet] at hs))⟩

/-- Witness for C5 at the scenario's freshly configured application,
which was never started. -/
theorem claim_C5_stop_idempotent_witness :
    (initSim 1040 1000 1000000 0 20).app.m_socketSet = true ∧
    (stopApplication (initSim 1040 1000 1000000 0 20)).app.m_socketOpen = false ∧
    stopApplication (stopApplication (initSim 1040 1000 1000000 0 20)) =
      stopApplication (initSim 1040 1000 1000000 0 20) :=
  ⟨by decide,
   (claim_C5_stop_idempotent (initSim 1040 1000 1000000 0 20)).2.2.1 (by decide),
   (claim_C5_stop_idempotent (initSim 1040 1000 1000000 0 20)).2.2.2⟩

/-- Counterexample to claim C6: invoking start a second time (at
t = 2.5 s, between the sends of a 1-byte, 5-packet, 8 bit/s run whose
sends fall at 0, 1, 2, 3, 4 s) leaves TWO send events pending in the
queue at once, contradicting "at most one pending send event at any
time". -/
theorem claim_C6_counterexample :
    ¬ ((run 4 (initSimDoubleStart 1 5 8 0 (mkRat 5 2) 20)).queue.countP
        (fun e => e.kind == EvKind.evSend) ≤ 1) := by
  decide

/-- Claim C6 amended: `StartApplication` has no double-start guard.  A
second start resets the sent counter again (the counter is 1 after any
start, whatever was sent before) and starts a second concurrent send
chain: after the second start of the double-start run two send events are
pending simultaneously, four packets have been sent (at 0, 1, 2 and
2.5 s) yet the counter reads 1. -/
theorem claim_C6_amended :
    (∀ s : SimState, (startApplication s).app.m_packetsSent = 1) ∧
    (run 4 (initSimDoubleStart 1 5 8 0 (mkRat 5 2) 20)).queue.countP
      (fun e => e.kind == EvKind.evSend) = 2 ∧
    (run 4 (initSimDoubleStart 1 5 8 0 (mkRat 5 2) 20)).app.m_packetsSent = 1 ∧
    (run 4 (initSimDoubleStart 1 5 8 0 (mkRat 5 2) 20)).sentLog = [0, 1, 2, mkRat 5 2] :=
  ⟨startApplication_packetsSent, by decide, by decide, by decide⟩

/-- Claim C7: the interval computation of `ScheduleTx` is unguarded
against a zero data rate: with `dataRate = 0` the division-by-zero branch
is reached as soon as the application starts (here after one scheduler
step of the scenario configuration with rate 0), while under the
precondition `dataRate > 0` it is unreachable for the whole run. -/
theorem claim_C7_zero_rate_division (ps np dr : ℕ) (t0 tStop : ℚ) (n : ℕ)
    (hdr : 0 < dr) :
    (run n (initSim ps np dr t0 tStop)).divByZero = false ∧
    (run 1 (initSim 1040 1000 0 0 20)).divByZero = true :=
  ⟨(run_divByZero n (initSim ps np dr t0 tStop) (fun hc => absurd hc hdr.ne') rfl).2,
   by decide⟩

/-- Witness for C7 at the scenario configuration. -/
theorem claim_C7_zero_rate_division_witness :
    0 < 1000000 ∧
    ((run 3 (initSim 1040 1000 1000000 0 20)).divByZero = false ∧
     (run 1 (initSim 1040 1000 0 0 20)).divByZero = true) :=
  ⟨by decide, claim_C7_zero_rate_division 1040 1000 1000000 0 20 3 (by decide)⟩

/-- Claim C8: the assembled topology is a linear chain of four nodes over
three point-to-point links (nodes 0-1, 1-2, 2-3, each 5 Mbps / 2 ms),
each link with a distinct address block, and exactly one stochastic error
model is installed, on device 1 (the receiving interface at node 1) of
link 0, with fixed per-packet probability 0.00001. -/
theorem claim_C8_topology :
    tcpChainScenario.numNodes = 4 ∧
    tcpChainScenario.links.map (fun l => (l.nodeA, l.nodeB)) = [(0, 1), (1, 2), (2, 3)] ∧
    (tcpChainScenario.links.map (fun l => l.netBase)).Nodup ∧
    tcpChainScenario.links.map (fun l => (l.dataRateBps, l.delayMs)) =
      [(5000000, 2), (5000000, 2), (5000000, 2)] ∧
    tcpChainScenario.errorModels = [⟨0, 1, mkRat 1 100000⟩] := by
  decide

/-- Counterexample to claim C9: the console line does NOT carry the same
(time, old, new) sample as the trace line — at the sample
(t = 1, old = 2, new = 3) the console line lacks the old value. -/
theorem claim_C9_counterexample :
    ¬ ((cwndChange 1 2 3).2 =
        [TraceField.timeF 1, TraceField.valF 2, TraceField.valF 3]) := by
  decide

/-- Claim C9 amended: on every congestion-window change the observer
appends exactly one line (time, old window, new window) to the ASCII
trace sink, and surfaces to the console a line with the time and the NEW
window size only; being a pure function of the sample it mutates no
scheduler or application state. -/
theorem claim_C9_amended (t : ℚ) (o n : ℕ) :
    (cwndChange t o n).1 = [TraceField.timeF t, TraceField.valF o, TraceField.valF n] ∧
    (cwndChange t o n).2 = [TraceField.timeF t, TraceField.valF n] :=
  ⟨rfl, rfl⟩

/-- Claim C10: with the out-of-precondition budget `packetCount = 0`,
starting the application still transmits exactly one packet — the counter
is pre-incremented to 1 before the comparison, 1 is not less than 0, so
nothing further is scheduled (the uid counter stays at 2: no send event
was ever created) — and the sent-counter ≤ packetCount invariant fails. -/
theorem claim_C10_zero_budget_sends_one :
    (run 2 (initSim 1040 0 1000000 0 20)).app.m_packetsSent = 1 ∧
    (run 2 (initSim 1040 0 1000000 0 20)).sentLog = [0] ∧
    (run 2 (initSim 1040 0 1000000 0 20)).nextSeq = 2 ∧
    ¬ ((run 2 (initSim 1040 0 1000000 0 20)).app.m_packetsSent ≤
        (run 2 (initSim 1040 0 1000000 0 20)).app.m_nPackets) := by
  decide

end TcpChain
